import Mathlib

/- Shallow embedding of the dserver-client transfer pipeline
(livMatS/dserver-client-js).  The definitions below translate the error
classes and the `request` helper of `src/client.ts`, the utility functions
of `src/utils.ts` (`generateIdentifier`, `withRetry`, `parallelLimit`), and
the high-level `downloadItem` / `createDataset` operations.  HTTP responses,
the digest collaborator and the completion order of concurrent transfers are
passed in explicitly as parameters; machine integers are `Nat` with explicit
`% 2 ^ 32` where 32-bit overflow matters. -/

set_option maxRecDepth 200000

namespace DCl

/-- Error values thrown by the client (`src/types.ts`): `DServerError` with a
status code and a message or body, and its subclasses `AuthenticationError`
(401), `AuthorizationError` (403) and `NotFoundError` (404).  The
`expiredURLSet` constructor is the `ExpiredURLSet` entry of the spec error
taxonomy; the source defines no corresponding class and never produces it,
which is what the C3 theorems are about. -/
inductive DSErr : Type
  | authentication : DSErr
  | authorization : DSErr
  | notFound : String → DSErr
  | dserver : ℕ → String → DSErr
  | expiredURLSet : DSErr
  deriving DecidableEq, Repr

/-- Boolean success test on `Except`, mirroring whether a promise fulfilled. -/
def isOkB {ε α : Type} : Except ε α → Bool
  | .ok _ => true
  | .error _ => false

instance {ε α : Type} [DecidableEq ε] [DecidableEq α] : DecidableEq (Except ε α)
  | .ok a, .ok b =>
    if h : a = b then .isTrue (h ▸ rfl) else .isFalse (fun he => h (Except.ok.inj he))
  | .ok _, .error _ => .isFalse (fun he => Except.noConfusion he)
  | .error _, .ok _ => .isFalse (fun he => Except.noConfusion he)
  | .error e, .error f =>
    if h : e = f then .isTrue (h ▸ rfl) else .isFalse (fun he => h (Except.error.inj he))

/-- Fetch API `response.ok`: the status is in the inclusive range 200-299. -/
def statusOk (status : ℕ) : Bool :=
  decide (200 ≤ status ∧ status < 300)

/-- Status dispatch of `DServerClient.request` (`client.ts` 123-146): on a
non-ok response, 401 maps to `AuthenticationError`, 403 to
`AuthorizationError`, 404 to `NotFoundError` and anything else to a
`DServerError` carrying the status code and the decoded error body; an ok
response raises nothing. -/
def classifyResponse (status : ℕ) (errorBody : String) : Option DSErr :=
  if statusOk status then none
  else some (
    if status = 401 then .authentication
    else if status = 403 then .authorization
    else if status = 404 then .notFound "Resource not found"
    else .dserver status errorBody)

/-- One HTTP response as the embedding sees it: the status code, the decoded
error body (read on non-ok responses) and the decoded JSON value (read on ok
responses). -/
structure HttpResp (α : Type) where
  status : ℕ
  errorBody : String
  value : α

/-- `DServerClient.request` (`client.ts` 104-149): issues exactly one fetch
of `(method, path)` and maps the response through `classifyResponse`.  The
second component is the list of HTTP requests performed — always that single
one; `request` has no retry loop. -/
def requestRun {α : Type} (method path : String) (resp : HttpResp α) :
    Except DSErr α × List (String × String) :=
  (match classifyResponse resp.status resp.errorBody with
   | some e => .error e
   | none => .ok resp.value,
   [(method, path)])

/-- `getDatasetSignedUrls`: one GET of `/signed-urls/dataset/` followed by
the encoded URI, through `request`.  `encode` stands for the JS builtin
`encodeURIComponent` used by `encodeUri`. -/
def getDatasetSignedUrlsRun {α : Type} (encode : String → String) (uri : String)
    (resp : HttpResp α) : Except DSErr α × List (String × String) :=
  requestRun "GET" ("/signed-urls/dataset/" ++ encode uri) resp

/-- `getItemSignedUrl`: one GET of `/signed-urls/item/.../identifier`
through `request`. -/
def getItemSignedUrlRun {α : Type} (encode : String → String)
    (uri identifier : String) (resp : HttpResp α) :
    Except DSErr α × List (String × String) :=
  requestRun "GET" ("/signed-urls/item/" ++ encode uri ++ "/" ++ identifier) resp

/-- `getUploadUrls`: one POST of `/signed-urls/upload/...` through `request`
(the JSON body plays no role in the status classification). -/
def getUploadUrlsRun {α : Type} (encode : String → String) (baseUri : String)
    (resp : HttpResp α) : Except DSErr α × List (String × String) :=
  requestRun "POST" ("/signed-urls/upload/" ++ encode baseUri) resp

/-- `signalUploadComplete`: one POST of `/signed-urls/upload-complete`
through `request`. -/
def signalUploadCompleteRun {α : Type} (resp : HttpResp α) :
    Except DSErr α × List (String × String) :=
  requestRun "POST" "/signed-urls/upload-complete" resp

/-- The error-mapping contract of one gateway call `r` against a response
with the given status, error body and decoded value: each error class is
raised exactly at its status, a `DServerError` with the status and body is
raised exactly at the remaining non-success statuses, success statuses
raise nothing, and exactly one HTTP request is issued (no internal retry). -/
def mapsStatuses {α : Type} (r : Except DSErr α × List (String × String))
    (status : ℕ) (errorBody : String) (value : α) : Prop :=
  (r.1 = Except.error DSErr.authentication ↔ status = 401) ∧
  (r.1 = Except.error DSErr.authorization ↔ status = 403) ∧
  (r.1 = Except.error (DSErr.notFound "Resource not found") ↔ status = 404) ∧
  (r.1 = Except.error (DSErr.dserver status errorBody) ↔
    (statusOk status = false ∧ status ≠ 401 ∧ status ≠ 403 ∧ status ≠ 404)) ∧
  (statusOk status = true → r.1 = Except.ok value) ∧
  r.2.length = 1

/-- The fields of a `DatasetSignedURLsResponse` that `downloadItem` reads,
plus the expiry fields that a proactive expiry check would need
(`src/types.ts` 20-41). -/
structure SignedUrlSet where
  uri : String
  expiry_seconds : ℕ
  expiry_timestamp : String
  item_urls : List (String × String)

/-- JS property lookup `urls.item_urls[identifier]` on a string-keyed
record, first match wins. -/
def lookupUrl : List (String × String) → String → Option String
  | [], _ => none
  | (k, v) :: rest, key => if k = key then some v else lookupUrl rest key

/-- Network events of a download run. -/
inductive DLEvent : Type
  | fetchUrl : String → DLEvent
  deriving DecidableEq, Repr

/-- The chunked reader of `downloadItem` (the `options.onProgress` branch):
accumulates the delivered chunks and concatenates them. -/
def readChunks (chunks : List (List ℕ)) : List ℕ :=
  chunks.foldl (fun acc c => acc ++ c) []

/-- `downloadItem` (`client.ts` 233-275): looks the identifier up in
`item_urls` and throws `NotFoundError` naming the identifier when it is
absent, before any network traffic; mirrors the JS truthiness test
`if (!itemUrl)`, under which an empty-string URL is also treated as absent.
Otherwise it fetches the signed URL: a non-ok backend `status` becomes a
`DServerError` with that status, an ok response yields the body — via the
chunked reader when `useProgress` is set, via `arrayBuffer()` otherwise.
The second component lists the network fetches performed.  Note there is no
expiry comparison anywhere: the run does not even take a clock. -/
def downloadItemRun (urls : SignedUrlSet) (identifier : String)
    (useProgress : Bool) (status : ℕ) (chunks : List (List ℕ)) :
    Except DSErr (List ℕ) × List DLEvent :=
  match lookupUrl urls.item_urls identifier with
  | none => (.error (.notFound ("Item " ++ identifier ++ " not found in dataset")), [])
  | some itemUrl =>
    if itemUrl = "" then
      (.error (.notFound ("Item " ++ identifier ++ " not found in dataset")), [])
    else if statusOk status then
      (if useProgress then .ok (readChunks chunks) else .ok chunks.flatten,
       [.fetchUrl itemUrl])
    else
      (.error (.dserver status "Failed to download item"), [.fetchUrl itemUrl])

/-- A signed URL set whose validity window is already over
(`expiry_seconds = 0`, epoch expiry timestamp), still carrying one item
URL: the concrete input of the C3 counterexample. -/
def expiredUrlSet : SignedUrlSet :=
  { uri := "s3://bucket/uuid"
    expiry_seconds := 0
    expiry_timestamp := "1970-01-01T00:00:00+00:00"
    item_urls := [("item1", "https://store/signed/item1")] }

/-- Rotate the 32-bit word `x` left by `n` places (`Nat` arithmetic with an
explicit `% 2 ^ 32`). -/
def rotl32 (n x : ℕ) : ℕ :=
  ((x <<< n) ||| (x >>> (32 - n))) % 2 ^ 32

/-- UTF-8 encoding of one character, as `TextEncoder` produces it. -/
def utf8Char (c : Char) : List ℕ :=
  let n := c.toNat
  if n < 128 then [n]
  else if n < 2048 then [192 + n / 64, 128 + n % 64]
  else if n < 65536 then [224 + n / 4096, 128 + n / 64 % 64, 128 + n % 64]
  else [240 + n / 262144, 128 + n / 4096 % 64, 128 + n / 64 % 64, 128 + n % 64]

/-- `new TextEncoder().encode(s)`: the UTF-8 bytes of `s`. -/
def utf8Bytes (s : String) : List ℕ :=
  (s.data.map utf8Char).flatten

/-- SHA-1 message padding (FIPS 180): append the 0x80 marker, zero bytes up
to 56 mod 64, then the 64-bit big-endian bit length. -/
def sha1Pad (msg : List ℕ) : List ℕ :=
  let bitLen := 8 * msg.length
  let zeros := (64 - (msg.length + 9) % 64) % 64
  msg ++ [128] ++ List.replicate zeros 0 ++
    (List.range 8).map (fun i => (bitLen >>> (8 * (7 - i))) % 256)

/-- Split a byte list into 64-byte blocks (fuel-driven structural
recursion; the fuel is instantiated with the list length). -/
def blocks64 : ℕ → List ℕ → List (List ℕ)
  | 0, _ => []
  | _, [] => []
  | fuel + 1, l => l.take 64 :: blocks64 fuel (l.drop 64)

/-- The sixteen 32-bit big-endian words of one 64-byte block. -/
def blockWords (b : List ℕ) : List ℕ :=
  (List.range 16).map (fun i =>
    b.getD (4 * i) 0 * 2 ^ 24 + b.getD (4 * i + 1) 0 * 2 ^ 16 +
      b.getD (4 * i + 2) 0 * 2 ^ 8 + b.getD (4 * i + 3) 0)

/-- Message-schedule extension: append `k` more schedule words, each the
1-rotation of the XOR of the words 3, 8, 14 and 16 places back. -/
def extendWords : ℕ → List ℕ → List ℕ
  | 0, w => w
  | k + 1, w =>
    extendWords k (w ++ [rotl32 1
      ((w.getD (w.length - 3) 0 ^^^ w.getD (w.length - 8) 0) ^^^
        (w.getD (w.length - 14) 0 ^^^ w.getD (w.length - 16) 0))])

/-- One SHA-1 round on the five-word state, at round index `t` with schedule
word `w`. -/
def sha1Round (st : ℕ × ℕ × ℕ × ℕ × ℕ) (t w : ℕ) : ℕ × ℕ × ℕ × ℕ × ℕ :=
  let (a, b, c, d, e) := st
  let f :=
    if t < 20 then (b &&& c) ||| ((b ^^^ (2 ^ 32 - 1)) &&& d)
    else if t < 40 then (b ^^^ c) ^^^ d
    else if t < 60 then ((b &&& c) ||| (b &&& d)) ||| (c &&& d)
    else (b ^^^ c) ^^^ d
  let k :=
    if t < 20 then 1518500249
    else if t < 40 then 1859775393
    else if t < 60 then 2400959708
    else 3395469782
  ((rotl32 5 a + f + e + k + w) % 2 ^ 32, a, rotl32 30 b, c, d)

/-- Process one 64-byte block: run the 80 rounds over the extended schedule
and add the result back into the chaining state, mod 2 ^ 32. -/
def sha1Block (h : ℕ × ℕ × ℕ × ℕ × ℕ) (blk : List ℕ) : ℕ × ℕ × ℕ × ℕ × ℕ :=
  let w := extendWords 64 (blockWords blk)
  let r := w.enum.foldl (fun st p => sha1Round st p.1 p.2) h
  ((h.1 + r.1) % 2 ^ 32, (h.2.1 + r.2.1) % 2 ^ 32, (h.2.2.1 + r.2.2.1) % 2 ^ 32,
    (h.2.2.2.1 + r.2.2.2.1) % 2 ^ 32, (h.2.2.2.2 + r.2.2.2.2) % 2 ^ 32)

/-- Big-endian bytes of one 32-bit word. -/
def wordBytes (w : ℕ) : List ℕ :=
  [w / 2 ^ 24 % 256, w / 2 ^ 16 % 256, w / 2 ^ 8 % 256, w % 256]

/-- The twenty digest bytes of a final SHA-1 state. -/
def sha1Digest (h : ℕ × ℕ × ℕ × ℕ × ℕ) : List ℕ :=
  wordBytes h.1 ++ wordBytes h.2.1 ++ wordBytes h.2.2.1 ++
    wordBytes h.2.2.2.1 ++ wordBytes h.2.2.2.2

/-- SHA-1 of a byte list, as `crypto.subtle.digest("SHA-1", data)` computes
it: 20 digest bytes. -/
def sha1 (msg : List ℕ) : List ℕ :=
  sha1Digest ((blocks64 (sha1Pad msg).length (sha1Pad msg)).foldl sha1Block
    (1732584193, 4023233417, 2562383102, 271733878, 3285377520))

/-- JS `n.toString(16)` digit for `n < 16` (lowercase letters). -/
def hexDigit (n : ℕ) : Char :=
  if n < 10 then Char.ofNat (48 + n) else Char.ofNat (87 + n)

/-- JS `b.toString(16).padStart(2, "0")` for a byte `b < 256`: exactly two
lowercase hex characters. -/
def byteHex (b : ℕ) : List Char :=
  [hexDigit (b / 16), hexDigit (b % 16)]

/-- Is `c` one of the sixteen lowercase hexadecimal digit characters? -/
def isHexLowerChar (c : Char) : Bool :=
  decide ((48 ≤ c.toNat ∧ c.toNat ≤ 57) ∨ (97 ≤ c.toNat ∧ c.toNat ≤ 102))

/-- `generateIdentifier` (utils.ts 397-403): the lowercase hexadecimal
SHA-1 digest of the UTF-8 bytes of `relpath`, built byte by byte with the
two-character pad, exactly as the source maps the digest buffer. -/
def generateIdentifier (relpath : String) : String :=
  String.mk ((sha1 (utf8Bytes relpath)).map byteHex).flatten

/-- The retry loop of `withRetry` (utils.ts 486-519).  `f k` is how the
`k`-th invocation of `fn` settles (0-based).  `attempt` is the loop counter,
`remaining` is `maxRetries - attempt`, `cur` is `currentDelay`, and `ds`
accumulates the delays slept so far.  On failure with retries remaining, the
source sleeps `currentDelay` and then sets
`currentDelay = min(currentDelay * backoffFactor, maxDelay)`.  Returns the
final result, the number of invocations made, and the delay list in order. -/
def retryGo {ε α : Type} (f : ℕ → Except ε α) (maxDelay backoffFactor : ℕ) :
    ℕ → ℕ → ℕ → List ℕ → Except ε α × ℕ × List ℕ
  | attempt, 0, _cur, ds =>
    match f attempt with
    | .ok a => (.ok a, attempt + 1, ds)
    | .error e => (.error e, attempt + 1, ds)
  | attempt, r + 1, cur, ds =>
    match f attempt with
    | .ok a => (.ok a, attempt + 1, ds)
    | .error _ =>
      retryGo f maxDelay backoffFactor (attempt + 1) r
        (min (cur * backoffFactor) maxDelay) (ds ++ [cur])

/-- `withRetry` (utils.ts 486-519) with the invocation outcomes supplied as
the oracle `f`. -/
def withRetryRun {ε α : Type} (f : ℕ → Except ε α)
    (maxRetries initialDelay maxDelay backoffFactor : ℕ) :
    Except ε α × ℕ × List ℕ :=
  retryGo f maxDelay backoffFactor 0 maxRetries initialDelay []

/-- The delay `withRetry` sleeps before the `(k+1)`-st invocation: the
source recurrence `d 0 = initialDelay`,
`d (k+1) = min (d k * backoffFactor) maxDelay`. -/
def capDelay (initialDelay maxDelay backoffFactor : ℕ) : ℕ → ℕ
  | 0 => initialDelay
  | k + 1 => min (capDelay initialDelay maxDelay backoffFactor k * backoffFactor) maxDelay

/-- `Promise.all(results)`: fulfills with the in-order list of fulfilled
values, or rejects with the first rejection in array order. -/
def collectAll {ε α : Type} : List (Except ε α) → Except ε (List α)
  | [] => .ok []
  | Except.ok a :: rest => (collectAll rest).map (fun l => a :: l)
  | Except.error e :: _ => .error e

/-- Observable data of one modelled execution of `parallelLimit`: the final
settlement of the returned promise, the indices of the tasks that were
actually admitted (had `fn(item)` invoked), in admission order, and the
largest number of tasks simultaneously in flight. -/
structure PLRun (ε α : Type) where
  result : Except ε (List α)
  started : List ℕ
  maxInFlight : ℕ

/-- Scheduler state inside the admission loop of `parallelLimit`:
`executing` mirrors the JS `executing` array (admitted, not yet spliced-out
promises, each carried with its predetermined settlement), `sched` is the
remaining environment schedule, `started` the indices admitted so far, and
`maxIF` the running maximum of in-flight tasks. -/
structure PLState (ε α : Type) where
  executing : List (ℕ × Except ε α)
  sched : List ℕ
  started : List ℕ
  maxIF : ℕ

/-- The admission loop of `parallelLimit` (utils.ts 543-556) in tracking
mode (`limit ≤ items.length`).  Each iteration admits the next task and
pushes its tracking promise; when `executing.length ≥ limit` the loop
suspends on `Promise.race(executing)`.  The environment then resolves the
race: the head of `sched` (modulo the in-flight count) picks which
in-flight promise settles first.  A fulfilled promise splices itself out of
`executing` and the loop resumes; a rejected promise rejects the race, and
with it the whole `parallelLimit` call — the source catches nothing, so the
rejection propagates and no further task is admitted.  Returns the rejection
observed (if any) together with the final state. -/
def plLoop {ε α : Type} (limit : ℕ) :
    List (ℕ × Except ε α) → PLState ε α → Option ε × PLState ε α
  | [], s => (none, s)
  | (i, o) :: rest, s =>
    let ex := s.executing ++ [(i, o)]
    let st := s.started ++ [i]
    let m := max s.maxIF ex.length
    if limit ≤ ex.length then
      let pos := s.sched.headD 0 % ex.length
      let chosen := ex.getD pos (i, o)
      match chosen.2 with
      | .ok _ => plLoop limit rest ⟨ex.eraseIdx pos, s.sched.tail, st, m⟩
      | .error e => (some e, ⟨ex, s.sched.tail, st, m⟩)
    else
      plLoop limit rest ⟨ex, s.sched, st, m⟩

/-- `parallelLimit` (utils.ts 535-559) over predetermined task settlements:
`outs.get i` is how `fn(items[i])` settles, and `sched` is the environment
schedule resolving each race.  When `limit ≤ items.length` the tracking
loop runs; otherwise the source skips the `executing` bookkeeping entirely,
every task is admitted up front (all of them in flight together before any
settles) and only the final `Promise.all` observes the settlements. -/
def parallelLimitRun {ε α : Type} (outs : List (Except ε α)) (limit : ℕ)
    (sched : List ℕ) : PLRun ε α :=
  if limit ≤ outs.length then
    match plLoop limit outs.enum ⟨[], sched, [], 0⟩ with
    | (some e, s) => ⟨.error e, s.started, s.maxIF⟩
    | (none, s) => ⟨collectAll outs, s.started, s.maxIF⟩
  else
    ⟨collectAll outs, List.range outs.length, outs.length⟩

/-- What `createDataset` consumes from the `getUploadUrls` response: the
dataset URI and the per-identifier item upload URLs
(`upload_urls.items`); the readme URL is represented by the readme PUT
outcome directly. -/
structure UploadUrlsInfo where
  uri : String
  itemUrls : List (String × String)

/-- The network events of one `createDataset` run, in order. -/
inductive CDEvent : Type
  | getUploadUrlsCall : CDEvent
  | putReadme : CDEvent
  | putItem : ℕ → CDEvent
  | signalCall : CDEvent
  deriving DecidableEq, Repr

/-- How the `parallelLimit` worker of `createDataset` (`client.ts` 437-473)
settles for one item: no entry for the item identifier in
`upload_urls.items` rejects with `DServerError(500)` naming the relpath; a
PUT answered with a non-ok status rejects with `DServerError(status)`
naming the relpath; an ok PUT fulfills.  `putStatus` is the backend PUT
status per identifier. -/
def itemUploadOutcome (itemUrls : List (String × String))
    (putStatus : String → ℕ) (relpath identifier : String) : Except DSErr Unit :=
  match lookupUrl itemUrls identifier with
  | none => .error (.dserver 500 ("No upload URL for item " ++ relpath))
  | some _url =>
    if statusOk (putStatus identifier) then .ok ()
    else .error (.dserver (putStatus identifier) ("Failed to upload " ++ relpath))

/-- `createDataset` (`client.ts` 385-477): after the local metadata pass
(identifiers via `idOf`, instantiated by `generateIdentifier` in the
source), it requests upload URLs, PUTs the readme, drives the item PUTs
through `parallelLimit` with limit 4, and — only when that batch fulfills —
finally calls `signalUploadComplete`.  `urlsResp` is the `getUploadUrls`
settlement, `readmeStatus` the readme PUT status, `signalResp` the
upload-complete settlement, and `sched` the completion schedule of the item
batch.  Returns the overall settlement and the ordered network event list
(`putItem i` stands for the PUT of the i-th file, recorded at admission). -/
def createDatasetRun (idOf : String → String) (relpaths : List String)
    (urlsResp : Except DSErr UploadUrlsInfo) (readmeStatus : ℕ)
    (putStatus : String → ℕ) (signalResp : Except DSErr String)
    (sched : List ℕ) : Except DSErr String × List CDEvent :=
  match urlsResp with
  | .error e => (.error e, [.getUploadUrlsCall])
  | .ok info =>
    if statusOk readmeStatus then
      let outs := relpaths.map
        (fun rp => itemUploadOutcome info.itemUrls putStatus rp (idOf rp))
      let run := parallelLimitRun outs 4 sched
      match run.result with
      | .error e =>
        (.error e, [.getUploadUrlsCall, .putReadme] ++ run.started.map CDEvent.putItem)
      | .ok _ =>
        (signalResp, [.getUploadUrlsCall, .putReadme] ++
          run.started.map CDEvent.putItem ++ [.signalCall])
    else
      (.error (.dserver readmeStatus "Failed to upload text"),
        [.getUploadUrlsCall, .putReadme])

/-- The two digest algorithms `computeItemMetadata` can end up using. -/
inductive HashAlgo : Type
  | md5 : HashAlgo
  | sha256 : HashAlgo
  deriving DecidableEq, Repr

/-- The algorithm the upload metadata declares for the `hash` field: the
`UploadItem` type documents it as the MD5 hex digest (`src/types.ts` 62-71),
and no field of the upload request ever carries a different algorithm name. -/
def declaredHashAlgo : HashAlgo := .md5

/-- `computeItemMetadata` (`client.ts` 482-509): measures the content size,
then computes the digest as `crypto.subtle.digest("MD5", ...)` with a
`.catch` falling back to `crypto.subtle.digest("SHA-256", ...)`.  `digest`
is the crypto collaborator; `md5Available` says whether the MD5 call
fulfills (standard WebCrypto rejects MD5, so in browsers it is false).
Returns the size, the algorithm actually used, and the hex digest built
with the same per-byte two-character mapping as `generateIdentifier`. -/
def computeItemMetadataRun (digest : HashAlgo → List ℕ → List ℕ)
    (md5Available : Bool) (content : List ℕ) : ℕ × HashAlgo × String :=
  let algo := if md5Available then HashAlgo.md5 else HashAlgo.sha256
  (content.length, algo, String.mk ((digest algo content).map byteHex).flatten)

-- ===================================================================
-- Theorems
-- ===================================================================

theorem statusOk_iff (status : ℕ) :
    statusOk status = true ↔ 200 ≤ status ∧ status < 300 := by
  simp [statusOk]

theorem requestRun_maps {α : Type} (method path : String) (resp : HttpResp α) :
    mapsStatuses (requestRun method path resp) resp.status resp.errorBody resp.value := by
  unfold mapsStatuses requestRun classifyResponse
  by_cases hok : statusOk resp.status = true
  · have h300 : 200 ≤ resp.status ∧ resp.status < 300 := (statusOk_iff _).mp hok
    rw [hok]
    refine ⟨?_, ?_, ?_, ?_, ?_, rfl⟩ <;> simp <;> omega
  · rw [Bool.not_eq_true] at hok
    rw [hok]
    have h300 : ¬ (200 ≤ resp.status ∧ resp.status < 300) := by
      intro h; rw [(statusOk_iff _).mpr h] at hok; cases hok
    by_cases h1 : resp.status = 401
    · simp [h1]
    · by_cases h3 : resp.status = 403
      · simp [h1, h3]
      · by_cases h4 : resp.status = 404
        · simp [h1, h3, h4]
        · simp [h1, h3, h4]

theorem lookupUrl_eq_none (l : List (String × String)) (key : String)
    (h : key ∉ l.map Prod.fst) : lookupUrl l key = none := by
  induction l with
  | nil => rfl
  | cons p rest ih =>
    simp only [List.map_cons, List.mem_cons] at h
    push_neg at h
    simp [lookupUrl, Ne.symm h.1, ih h.2]

/-- Claim C10: for every signed URL set and every identifier that is not a
key of `item_urls`, `downloadItem` throws `NotFoundError` mentioning the
missing identifier and issues no HTTP request, whatever the option values
(progress reader on or off) and whatever the backend would have answered. -/
theorem C10_downloadItem_not_found (urls : SignedUrlSet) (identifier : String)
    (useProgress : Bool) (status : ℕ) (chunks : List (List ℕ))
    (h : identifier ∉ urls.item_urls.map Prod.fst) :
    downloadItemRun urls identifier useProgress status chunks =
      (.error (.notFound ("Item " ++ identifier ++ " not found in dataset")), []) := by
  simp [downloadItemRun, lookupUrl_eq_none _ _ h]

theorem C10_witness :
    downloadItemRun expiredUrlSet "missing" true 200 [[1]] =
      (.error (.notFound ("Item " ++ "missing" ++ " not found in dataset")), []) :=
  C10_downloadItem_not_found expiredUrlSet "missing" true 200 [[1]] (by decide)

/-- Claim C3 counterexample: the claim says a read against a signed URL set
whose expiry is already reached (here `expiry_seconds = 0`) fails with
`ExpiredURLSet` without a network call.  On the code, the very same call
issues the network fetch (the event list is nonempty) and returns the
backend body — it does not fail at all, let alone with `ExpiredURLSet`. -/
theorem C3_counterexample :
    (downloadItemRun expiredUrlSet "item1" false 200 [[7], [8]]).2 ≠ [] ∧
    (downloadItemRun expiredUrlSet "item1" false 200 [[7], [8]]).1 = .ok [7, 8] ∧
    (downloadItemRun expiredUrlSet "item1" false 200 [[7], [8]]).1 ≠
      .error DSErr.expiredURLSet := by
  refine ⟨by decide, by decide, by decide⟩

/-- Claim C3 amended: `downloadItem` performs no client-side expiry check.
Whenever the identifier resolves to a nonempty URL — the expiry fields of
the set playing no role — the network request is issued (exactly one fetch
of that URL), and no run of `downloadItem` ever produces the spec error
`ExpiredURLSet`; expiry rejection is left to the backend response. -/
theorem C3_downloadItem_no_expiry_check (urls : SignedUrlSet)
    (identifier itemUrl : String) (useProgress : Bool) (status : ℕ)
    (chunks : List (List ℕ))
    (hfind : lookupUrl urls.item_urls identifier = some itemUrl)
    (hne : itemUrl ≠ "") :
    (downloadItemRun urls identifier useProgress status chunks).2 =
      [.fetchUrl itemUrl] ∧
    (downloadItemRun urls identifier useProgress status chunks).1 ≠
      .error DSErr.expiredURLSet := by
  unfold downloadItemRun
  rw [hfind]
  simp only [if_neg hne]
  by_cases hok : statusOk status
  · simp [hok]
    by_cases hp : useProgress <;> simp [hp]
  · simp [hok]

theorem C3_witness :
    (downloadItemRun expiredUrlSet "item1" true 503 []).2 =
      [.fetchUrl "https://store/signed/item1"] ∧
    (downloadItemRun expiredUrlSet "item1" true 503 []).1 ≠
      .error DSErr.expiredURLSet :=
  C3_downloadItem_no_expiry_check expiredUrlSet "item1"
    "https://store/signed/item1" true 503 [] (by decide) (by decide)

theorem wordBytes_mem_lt {b w : ℕ} (h : b ∈ wordBytes w) : b < 256 := by
  simp [wordBytes] at h
  rcases h with h | h | h | h <;> subst h <;> exact Nat.mod_lt _ (by norm_num)

theorem sha1Digest_length (t : ℕ × ℕ × ℕ × ℕ × ℕ) : (sha1Digest t).length = 20 := by
  simp [sha1Digest, wordBytes]

theorem sha1Digest_mem_lt {b : ℕ} (t : ℕ × ℕ × ℕ × ℕ × ℕ)
    (h : b ∈ sha1Digest t) : b < 256 := by
  simp only [sha1Digest, List.mem_append] at h
  rcases h with (((h | h) | h) | h) | h <;> exact wordBytes_mem_lt h

theorem sha1_length (msg : List ℕ) : (sha1 msg).length = 20 :=
  sha1Digest_length _

theorem sha1_mem_lt {b : ℕ} (msg : List ℕ) (h : b ∈ sha1 msg) : b < 256 :=
  sha1Digest_mem_lt _ h

theorem hexDigit_lower : ∀ n < 16, isHexLowerChar (hexDigit n) = true := by decide

theorem byteHex_lower {b : ℕ} (hb : b < 256) :
    ∀ c ∈ byteHex b, isHexLowerChar c = true := by
  intro c hc
  simp [byteHex] at hc
  rcases hc with hc | hc <;> subst hc <;> apply hexDigit_lower <;> omega

theorem flatten_byteHex_length (l : List ℕ) :
    ((l.map byteHex).flatten).length = 2 * l.length := by
  induction l with
  | nil => rfl
  | cons b t ih => simp [byteHex, ih]; omega

/-- Claim C6: `generateIdentifier` is deterministic — it is a pure digest of
its argument, so equal relpaths give identical identifiers within and across
sessions; its output is always a 40-character string of lowercase
hexadecimal digits (the hex encoding of the 20-byte SHA-1 digest); and on
the representative corpus of distinct relpaths used in the spec scenario
the identifiers are pairwise distinct. -/
theorem C6_generateIdentifier_digest :
    (∀ p q : String, p = q → generateIdentifier p = generateIdentifier q) ∧
    (∀ p : String, (generateIdentifier p).length = 40 ∧
      (generateIdentifier p).data.all isHexLowerChar = true) ∧
    (generateIdentifier "a.txt" ≠ generateIdentifier "dir/b.txt" ∧
      generateIdentifier "a.txt" ≠ generateIdentifier "dir/c.txt" ∧
      generateIdentifier "dir/b.txt" ≠ generateIdentifier "dir/c.txt") := by
  refine ⟨fun p q h => h ▸ rfl, fun p => ⟨?_, ?_⟩, by decide, by decide, by decide⟩
  · show ((((sha1 (utf8Bytes p)).map byteHex).flatten)).length = 40
    rw [flatten_byteHex_length, sha1_length]
  · rw [List.all_eq_true]
    intro c hc
    have hc2 : c ∈ ((sha1 (utf8Bytes p)).map byteHex).flatten := hc
    rw [List.mem_flatten] at hc2
    obtain ⟨lc, hlc, hcin⟩ := hc2
    rw [List.mem_map] at hlc
    obtain ⟨b, hbmem, hbeq⟩ := hlc
    subst hbeq
    exact byteHex_lower (sha1_mem_lt _ hbmem) c hcin

theorem C6_witness : generateIdentifier "a.txt" = generateIdentifier "a.txt" :=
  C6_generateIdentifier_digest.1 "a.txt" "a.txt" rfl

theorem capDelay_eq {i M b : ℕ} (h : i ≤ M) :
    ∀ k, capDelay i M b k = min (i * b ^ k) M
  | 0 => by simp [capDelay, Nat.min_eq_left h]
  | k + 1 => by
    rw [capDelay, capDelay_eq h k]
    rcases le_or_lt (i * b ^ k) M with hle | hlt
    · rw [Nat.min_eq_left hle, pow_succ, ← mul_assoc]
    · have hb : 1 ≤ b := by
        rcases Nat.eq_zero_or_pos b with hb0 | hb1
        · subst hb0
          rcases Nat.eq_zero_or_pos k with hk0 | hk1
          · subst hk0; simp at hlt; omega
          · rw [zero_pow (Nat.pos_iff_ne_zero.mp hk1)] at hlt; simp at hlt
        · exact hb1
      have hMb : M ≤ M * b := Nat.le_mul_of_pos_right M hb
      have hmono : i * b ^ k ≤ i * b ^ (k + 1) :=
        Nat.mul_le_mul_left i (Nat.pow_le_pow_right hb (Nat.le_succ k))
      rw [Nat.min_eq_right (le_of_lt hlt), Nat.min_eq_right hMb,
        Nat.min_eq_right (le_trans (le_of_lt hlt) hmono)]

theorem retryGo_delays {ε α : Type} (f : ℕ → Except ε α) (i M b : ℕ) :
    ∀ rem attempt k, ∃ m,
      (retryGo f M b attempt rem (capDelay i M b k)
        ((List.range k).map (capDelay i M b))).2.2 =
      (List.range m).map (capDelay i M b) := by
  intro rem
  induction rem with
  | zero =>
    intro attempt k
    refine ⟨k, ?_⟩
    rcases hfa : f attempt with e | a <;> simp [retryGo, hfa]
  | succ r ih =>
    intro attempt k
    rcases hfa : f attempt with e | a
    · simp only [retryGo, hfa]
      have h2 : (List.range k).map (capDelay i M b) ++ [capDelay i M b k] =
          (List.range (k + 1)).map (capDelay i M b) := by
        rw [List.range_succ, List.map_append]; rfl
      rw [h2]
      exact ih (attempt + 1) (k + 1)
    · refine ⟨k, ?_⟩
      simp [retryGo, hfa]

theorem retryGo_allError {ε α : Type} (g : ℕ → ε) (M b : ℕ) :
    ∀ rem attempt cur ds,
      (retryGo (fun k => (Except.error (g k) : Except ε α)) M b attempt rem cur ds).1 =
        Except.error (g (attempt + rem)) ∧
      (retryGo (fun k => (Except.error (g k) : Except ε α)) M b attempt rem cur ds).2.1 =
        attempt + rem + 1 := by
  intro rem
  induction rem with
  | zero => intro attempt cur ds; simp [retryGo]
  | succ r ih =>
    intro attempt cur ds
    simp only [retryGo]
    have h := ih (attempt + 1) (min (cur * b) M) (ds ++ [cur])
    have harith : attempt + 1 + r = attempt + (r + 1) := by omega
    constructor
    · rw [h.1, harith]
    · rw [h.2]; omega

/-- Claim C7 amended: `withRetry` with `maxRetries = 2` around a function
failing twice then succeeding returns the success value after exactly 3
invocations; with `maxRetries = 0` a failing function has its error
re-raised after a single invocation with no delay slept; when every attempt
fails, the failure of the final attempt (attempt `maxRetries`) is re-raised
after `maxRetries + 1` invocations; and, provided
`initialDelay ≤ maxDelay`, the delay slept before retry `k` (0-based) is
`min (initialDelay * backoffFactor ^ k) maxDelay`.  (Without that proviso
the first delay is `initialDelay` uncapped — see the counterexample.) -/
theorem C7_withRetry_behavior (ε α : Type) (i M b : ℕ) :
    ((withRetryRun (fun k => if k < 2 then Except.error "transient" else Except.ok 42)
        2 1000 30000 2).1 = Except.ok 42 ∧
      (withRetryRun (fun k => if k < 2 then Except.error "transient" else Except.ok 42)
        2 1000 30000 2).2.1 = 3) ∧
    (∀ (f : ℕ → Except ε α) (e : ε), f 0 = Except.error e →
      withRetryRun f 0 i M b = (Except.error e, 1, [])) ∧
    (∀ (g : ℕ → ε) (mr : ℕ),
      (withRetryRun (fun k => (Except.error (g k) : Except ε α)) mr i M b).1 =
        Except.error (g mr) ∧
      (withRetryRun (fun k => (Except.error (g k) : Except ε α)) mr i M b).2.1 =
        mr + 1) ∧
    (∀ (f : ℕ → Except ε α) (mr : ℕ), i ≤ M →
      (withRetryRun f mr i M b).2.2 =
        (List.range ((withRetryRun f mr i M b).2.2).length).map
          (fun k => min (i * b ^ k) M)) := by
  refine ⟨⟨by decide, by decide⟩, ?_, ?_, ?_⟩
  · intro f e hf
    simp [withRetryRun, retryGo, hf]
  · intro g mr
    have h := @retryGo_allError ε α g M b mr 0 i []
    rw [Nat.zero_add] at h
    exact h
  · intro f mr hiM
    have hds := retryGo_delays f i M b mr 0 0
    simp only [List.range_zero, List.map_nil] at hds
    obtain ⟨m, hm⟩ := hds
    have hm2 : (withRetryRun f mr i M b).2.2 = (List.range m).map (capDelay i M b) := hm
    rw [hm2, List.length_map, List.length_range]
    apply List.map_congr_left
    intro k hk
    exact capDelay_eq hiM k

theorem C7_witness :
    withRetryRun (fun _ => (Except.error "boom" : Except String ℕ)) 0 5 7 2 =
      (Except.error "boom", 1, []) :=
  (C7_withRetry_behavior String ℕ 5 7 2).2.1 (fun _ => Except.error "boom") "boom" rfl

/-- Claim C7 counterexample: the claim says the delay before retry attempt
`k` is `initialDelay * backoffFactor ^ k` capped at `maxDelay`.  With
`initialDelay = 100`, `maxDelay = 10`, `backoffFactor = 2` and
`maxRetries = 1` around an always-failing function, the single delay
actually slept is 100 — the first delay is never capped — whereas the
claimed formula gives 10 under either indexing of `k`. -/
theorem C7_counterexample :
    (withRetryRun (fun _ => (Except.error "boom" : Except String ℕ)) 1 100 10 2).2.2 =
      [100] ∧
    (100 : ℕ) ≠ min (100 * 2 ^ 0) 10 ∧ (100 : ℕ) ≠ min (100 * 2 ^ 1) 10 := by
  refine ⟨by decide, by decide, by decide⟩

theorem collectAll_ok_mp {ε α : Type} :
    ∀ {outs : List (Except ε α)} {l : List α},
      collectAll outs = Except.ok l → outs = l.map Except.ok := by
  intro outs
  induction outs with
  | nil =>
    intro l h
    simp only [collectAll, Except.ok.injEq] at h
    subst h; rfl
  | cons x rest ih =>
    intro l h
    cases x with
    | error e => simp [collectAll] at h
    | ok a =>
      simp only [collectAll] at h
      cases hr : collectAll rest with
      | error e => rw [hr] at h; simp [Except.map] at h
      | ok l2 =>
        rw [hr] at h
        simp only [Except.map, Except.ok.injEq] at h
        rw [← h, List.map_cons]
        rw [← ih hr]

theorem collectAll_ne_ok {ε α : Type} {outs : List (Except ε α)} {e : ε}
    (he : Except.error e ∈ outs) : ∀ l, collectAll outs ≠ Except.ok l := by
  intro l h
  rw [collectAll_ok_mp h] at he
  simp [List.mem_map] at he

theorem getD_append_mem {β : Type} (l : List β) (x : β) (n : ℕ) :
    (l ++ [x]).getD n x ∈ l ++ [x] := by
  by_cases h : n < (l ++ [x]).length
  · rw [List.getD_eq_getElem _ _ h]
    exact List.getElem_mem h
  · rw [List.getD_eq_default _ _ (le_of_not_lt h)]
    exact List.mem_append_right l (by simp)

theorem plLoop_allOk {ε α : Type} (limit : ℕ) :
    ∀ (tasks : List (ℕ × Except ε α)) (s : PLState ε α),
      (∀ p ∈ s.executing, ∃ a, p.2 = Except.ok a) →
      (∀ p ∈ tasks, ∃ a, p.2 = Except.ok a) →
      (plLoop limit tasks s).1 = none ∧
      (plLoop limit tasks s).2.started = s.started ++ tasks.map Prod.fst := by
  intro tasks
  induction tasks with
  | nil => intro s _ _; simp [plLoop]
  | cons p rest ih =>
    obtain ⟨i, o⟩ := p
    intro s hex htask
    have hexall : ∀ q ∈ s.executing ++ [(i, o)], ∃ a, q.2 = Except.ok a := by
      intro q hq
      rcases List.mem_append.mp hq with h | h
      · exact hex q h
      · simp only [List.mem_singleton] at h
        subst h
        exact htask (i, o) (by simp)
    simp only [plLoop]
    by_cases hle : limit ≤ (s.executing ++ [(i, o)]).length
    · rw [if_pos hle]
      have hmem := getD_append_mem s.executing (i, o)
        (s.sched.headD 0 % (s.executing ++ [(i, o)]).length)
      obtain ⟨a, ha⟩ := hexall _ hmem
      rw [ha]
      have h2 := ih ⟨(s.executing ++ [(i, o)]).eraseIdx
            (s.sched.headD 0 % (s.executing ++ [(i, o)]).length),
          s.sched.tail, s.started ++ [i], max s.maxIF (s.executing ++ [(i, o)]).length⟩
        (fun q hq => hexall q (List.eraseIdx_subset _ _ hq))
        (fun q hq => htask q (by simp [hq]))
      refine ⟨h2.1, ?_⟩
      rw [h2.2]
      simp
    · rw [if_neg hle]
      have h2 := ih ⟨s.executing ++ [(i, o)], s.sched, s.started ++ [i],
          max s.maxIF (s.executing ++ [(i, o)]).length⟩
        hexall (fun q hq => htask q (by simp [hq]))
      refine ⟨h2.1, ?_⟩
      rw [h2.2]
      simp

theorem plLoop_maxIF_le {ε α : Type} (limit : ℕ) (hl : 1 ≤ limit) :
    ∀ (tasks : List (ℕ × Except ε α)) (s : PLState ε α),
      s.executing.length < limit → s.maxIF ≤ limit →
      (plLoop limit tasks s).2.maxIF ≤ limit := by
  intro tasks
  induction tasks with
  | nil => intro s _ hm; simpa [plLoop] using hm
  | cons p rest ih =>
    obtain ⟨i, o⟩ := p
    intro s hlen hm
    have hexlen : (s.executing ++ [(i, o)]).length = s.executing.length + 1 := by simp
    have hmle : max s.maxIF (s.executing ++ [(i, o)]).length ≤ limit := by
      rw [hexlen]; omega
    simp only [plLoop]
    by_cases hle : limit ≤ (s.executing ++ [(i, o)]).length
    · rw [if_pos hle]
      have hpos : s.sched.headD 0 % (s.executing ++ [(i, o)]).length <
          (s.executing ++ [(i, o)]).length := by
        apply Nat.mod_lt
        rw [hexlen]; omega
      rcases hc : ((s.executing ++ [(i, o)]).getD
          (s.sched.headD 0 % (s.executing ++ [(i, o)]).length) (i, o)).2 with e | a
      · exact hmle
      · apply ih
        · rw [List.length_eraseIdx, if_pos hpos, hexlen]
          omega
        · exact hmle
    · rw [if_neg hle]
      apply ih
      · rw [hexlen]; omega
      · exact hmle

theorem plLoop_maxIF_eq {ε α : Type} (limit : ℕ) :
    ∀ (tasks : List (ℕ × Except ε α)) (s : PLState ε α),
      s.executing.length + tasks.length ≤ limit →
      s.executing.length ≤ s.maxIF →
      (plLoop limit tasks s).2.maxIF = max s.maxIF (s.executing.length + tasks.length) := by
  intro tasks
  induction tasks with
  | nil => intro s _ hm; simp [plLoop]; omega
  | cons p rest ih =>
    obtain ⟨i, o⟩ := p
    intro s hsum hm
    have hexlen : (s.executing ++ [(i, o)]).length = s.executing.length + 1 := by simp
    simp only [List.length_cons] at hsum
    simp only [plLoop, List.length_cons]
    by_cases hle : limit ≤ (s.executing ++ [(i, o)]).length
    · rw [if_pos hle]
      rw [hexlen] at hle
      have hrest : rest.length = 0 := by omega
      rw [List.length_eq_zero] at hrest
      subst hrest
      rcases hc : ((s.executing ++ [(i, o)]).getD
          (s.sched.headD 0 % (s.executing ++ [(i, o)]).length) (i, o)).2 with e | a
      · simp only []
        rw [hexlen]
        omega
      · simp only [plLoop]
        rw [hexlen]
        omega
    · rw [if_neg hle]
      have h2 := ih ⟨s.executing ++ [(i, o)], s.sched, s.started ++ [i],
          max s.maxIF (s.executing ++ [(i, o)]).length⟩
        (by simp only [hexlen]; omega) (by simp only [hexlen]; omega)
      rw [h2]
      simp only [hexlen]
      omega

theorem parallelLimitRun_ok {ε α : Type} {outs : List (Except ε α)} {limit : ℕ}
    {sched : List ℕ} {l : List α}
    (h : (parallelLimitRun outs limit sched).result = Except.ok l) :
    outs = l.map Except.ok := by
  unfold parallelLimitRun at h
  by_cases hle : limit ≤ outs.length
  · rw [if_pos hle] at h
    rcases hpl : plLoop limit outs.enum ⟨[], sched, [], 0⟩ with ⟨err, s⟩
    rw [hpl] at h
    cases err with
    | none => exact collectAll_ok_mp h
    | some e => simp at h
  · rw [if_neg hle] at h
    exact collectAll_ok_mp h

theorem parallelLimitRun_raises {ε α : Type} {outs : List (Except ε α)} {limit : ℕ}
    {sched : List ℕ} {e : ε} (he : Except.error e ∈ outs) :
    isOkB (parallelLimitRun outs limit sched).result = false := by
  cases hres : (parallelLimitRun outs limit sched).result with
  | error f => simp [isOkB]
  | ok l =>
    exfalso
    have hmap := parallelLimitRun_ok hres
    rw [hmap] at he
    simp [List.mem_map] at he

theorem parallelLimitRun_started_all {ε α : Type} (outs : List (Except ε α))
    (limit : ℕ) (sched : List ℕ) (hall : ∀ x ∈ outs, ∃ a, x = Except.ok a) :
    (parallelLimitRun outs limit sched).started = List.range outs.length := by
  unfold parallelLimitRun
  by_cases hle : limit ≤ outs.length
  · rw [if_pos hle]
    have henum : ∀ p ∈ outs.enum, ∃ a, p.2 = Except.ok a := by
      intro p hp
      apply hall
      rw [List.mem_enum_iff_getElem?] at hp
      exact List.getElem?_mem hp
    have h := plLoop_allOk limit outs.enum ⟨[], sched, [], 0⟩ (by simp) henum
    rcases hpl : plLoop limit outs.enum ⟨[], sched, [], 0⟩ with ⟨err, s⟩
    rw [hpl] at h
    cases err with
    | none =>
      simp only []
      rw [h.2]
      simp [List.enum_map_fst]
    | some e => simp at h
  · rw [if_neg hle]

theorem parallelLimitRun_maxIF_le {ε α : Type} (outs : List (Except ε α))
    (limit : ℕ) (sched : List ℕ) (hl : 1 ≤ limit) :
    (parallelLimitRun outs limit sched).maxInFlight ≤ limit := by
  unfold parallelLimitRun
  by_cases hle : limit ≤ outs.length
  · rw [if_pos hle]
    have h := plLoop_maxIF_le limit hl outs.enum ⟨[], sched, [], 0⟩
      (by simpa using hl) (by simp)
    rcases hpl : plLoop limit outs.enum ⟨[], sched, [], 0⟩ with ⟨err, s⟩
    rw [hpl] at h
    cases err <;> exact h
  · rw [if_neg hle]
    push_neg at hle
    show outs.length ≤ limit
    omega

theorem parallelLimitRun_maxIF_eq {ε α : Type} (outs : List (Except ε α))
    (limit : ℕ) (sched : List ℕ) (hl : outs.length ≤ limit) :
    (parallelLimitRun outs limit sched).maxInFlight = outs.length := by
  unfold parallelLimitRun
  by_cases hle : limit ≤ outs.length
  · rw [if_pos hle]
    have h := plLoop_maxIF_eq limit outs.enum ⟨[], sched, [], 0⟩
      (by simpa using hl) (by simp)
    rcases hpl : plLoop limit outs.enum ⟨[], sched, [], 0⟩ with ⟨err, s⟩
    rw [hpl] at h
    cases err <;> simpa using h
  · rw [if_neg hle]

/-- Claim C1 counterexample: a batch of N = 2 tasks in which exactly one
worker fails (the second rejects with "boom"), run with limit 4.  The claim
says the scheduler still produces 2 outcomes with exactly one Failed,
capturing the failure instead of raising it.  On the code, `parallelLimit`
rejects with the failure: no outcome list is produced at all. -/
theorem C1_counterexample :
    (parallelLimitRun [Except.ok 1, Except.error "boom"] 4 []).result =
      Except.error "boom" ∧
    isOkB (parallelLimitRun [Except.ok 1, Except.error "boom"] 4 []).result =
      false := by
  exact ⟨rfl, rfl⟩

/-- Claim C1 amended: `parallelLimit` does not capture per-item failures as
outcomes.  In every modelled execution whose task settlements contain a
rejection, the promise returned by `parallelLimit` rejects (the first
failure observed propagates — through a race while admitting, or through the
final `Promise.all`), so a batch with a failing worker never completes with
a list of N outcomes.  Already-admitted sibling tasks are not cancelled
(their settlements still occur), but tasks not yet admitted when a race
rejects are never started. -/
theorem C1_parallelLimit_raises {ε α : Type} (outs : List (Except ε α))
    (limit : ℕ) (sched : List ℕ) (e : ε) (he : Except.error e ∈ outs) :
    isOkB (parallelLimitRun outs limit sched).result = false :=
  parallelLimitRun_raises he

theorem C1_witness :
    isOkB (parallelLimitRun [Except.error "x", Except.ok 0] 1 [0]).result = false :=
  C1_parallelLimit_raises [Except.error "x", Except.ok 0] 1 [0] "x" (by simp)

/-- Claim C4 counterexample: the claim says a new task is admitted as soon
as a running one completes, whether it succeeded or failed.  With tasks
[fail, succeed] and limit 1, task 0 completes (failed) at the first race,
yet task 1 is never admitted: the recorded admissions are `[0]` and the call
rejects instead. -/
theorem C4_counterexample :
    (parallelLimitRun [Except.error "X", Except.ok 0] 1 [0]).started = [0] ∧
    (parallelLimitRun [Except.error "X", Except.ok 0] 1 [0]).result =
      Except.error "X" := by
  exact ⟨rfl, rfl⟩

/-- Claim C4 amended: for every task sequence and schedule, (a) with
`limit ≥ 1` at most `limit` tasks are ever in flight at once; (b) when
`limit` is at least the number of tasks, all of them are in flight
simultaneously at some instant; (c) when every worker succeeds, each
completion admits the next task and every task is admitted, in input order.
But after a worker fails, the scheduler stops admitting and the call
rejects (see the counterexample), so admission-on-completion holds only for
successful completions. -/
theorem C4_parallelLimit_bound {ε α : Type} (outs : List (Except ε α))
    (limit : ℕ) (sched : List ℕ) :
    (1 ≤ limit → (parallelLimitRun outs limit sched).maxInFlight ≤ limit) ∧
    (outs.length ≤ limit →
      (parallelLimitRun outs limit sched).maxInFlight = outs.length) ∧
    ((∀ x ∈ outs, ∃ a, x = Except.ok a) →
      (parallelLimitRun outs limit sched).started = List.range outs.length) :=
  ⟨fun hl => parallelLimitRun_maxIF_le outs limit sched hl,
   fun hl => parallelLimitRun_maxIF_eq outs limit sched hl,
   fun hall => parallelLimitRun_started_all outs limit sched hall⟩

theorem C4_witness :
    (parallelLimitRun ([Except.ok 10, Except.ok 20, Except.ok 30] :
      List (Except String ℕ)) 2 [0, 0, 0]).maxInFlight ≤ 2 ∧
    (parallelLimitRun ([Except.ok 10, Except.ok 20] : List (Except String ℕ)) 5
      []).maxInFlight = 2 ∧
    (parallelLimitRun ([Except.ok 10, Except.ok 20, Except.ok 30] :
      List (Except String ℕ)) 2 [0, 0, 0]).started = List.range 3 := by
  refine ⟨(C4_parallelLimit_bound ([Except.ok 10, Except.ok 20, Except.ok 30] :
      List (Except String ℕ)) 2 [0, 0, 0]).1 (by decide),
    ?_,
    (C4_parallelLimit_bound ([Except.ok 10, Except.ok 20, Except.ok 30] :
      List (Except String ℕ)) 2 [0, 0, 0]).2.2 ?_⟩
  · have h := (C4_parallelLimit_bound
      ([Except.ok 10, Except.ok 20] : List (Except String ℕ)) 5 []).2.1
      (by decide)
    simpa using h
  · intro x hx
    simp only [List.mem_cons, List.not_mem_nil, or_false] at hx
    rcases hx with h | h | h <;> exact ⟨_, h⟩

/-- Claim C5: whenever `parallelLimit` fulfills with an outcome sequence,
that sequence pairs index-wise with the input ordering — the input tasks
are exactly the fulfilled values of the result list, position by position
(`outs = l.map Except.ok` says `outs[i]` settled as `ok l[i]`, lengths
included) — for every limit and every completion schedule. -/
theorem C5_parallelLimit_preserves_order {ε α : Type} (outs : List (Except ε α))
    (limit : ℕ) (sched : List ℕ) (l : List α)
    (h : (parallelLimitRun outs limit sched).result = Except.ok l) :
    outs = l.map Except.ok :=
  parallelLimitRun_ok h

theorem C5_witness :
    ([Except.ok 10, Except.ok 20] : List (Except String ℕ)) =
      [10, 20].map Except.ok :=
  C5_parallelLimit_preserves_order [Except.ok 10, Except.ok 20] 1 [0, 0] [10, 20]
    (by decide)

/-- Claim C2: in every modelled execution of `createDataset`, (a) if the
upload URLs arrived and any item PUT fails, then `signalUploadComplete` is
never called and the operation settles as a failure; (b) whenever the
upload-complete call does appear in the trace, every item upload succeeded,
and the signal is the final event, strictly after all item PUT events (and
every one of the `relpaths.length` items was PUT). -/
theorem C2_createDataset_signal_order (idOf : String → String)
    (relpaths : List String) (urlsResp : Except DSErr UploadUrlsInfo)
    (readmeStatus : ℕ) (putStatus : String → ℕ)
    (signalResp : Except DSErr String) (sched : List ℕ) :
    (∀ info, urlsResp = Except.ok info →
      (∃ rp ∈ relpaths,
        isOkB (itemUploadOutcome info.itemUrls putStatus rp (idOf rp)) = false) →
      CDEvent.signalCall ∉ (createDatasetRun idOf relpaths urlsResp readmeStatus
        putStatus signalResp sched).2 ∧
      isOkB (createDatasetRun idOf relpaths urlsResp readmeStatus putStatus
        signalResp sched).1 = false) ∧
    (CDEvent.signalCall ∈ (createDatasetRun idOf relpaths urlsResp readmeStatus
        putStatus signalResp sched).2 →
      ∃ info, urlsResp = Except.ok info ∧
        (∀ rp ∈ relpaths,
          itemUploadOutcome info.itemUrls putStatus rp (idOf rp) = Except.ok ()) ∧
        (createDatasetRun idOf relpaths urlsResp readmeStatus putStatus
          signalResp sched).2 =
          [CDEvent.getUploadUrlsCall, CDEvent.putReadme] ++
            (List.range relpaths.length).map CDEvent.putItem ++
            [CDEvent.signalCall]) := by
  constructor
  · intro info hinfo hfail
    subst hinfo
    obtain ⟨rp, hrp, hout⟩ := hfail
    by_cases hreadme : statusOk readmeStatus
    · have he : ∃ e, itemUploadOutcome info.itemUrls putStatus rp (idOf rp) =
          Except.error e := by
        cases hx : itemUploadOutcome info.itemUrls putStatus rp (idOf rp) with
        | ok a => rw [hx] at hout; simp [isOkB] at hout
        | error e => exact ⟨e, rfl⟩
      obtain ⟨e, he⟩ := he
      have hmem : Except.error e ∈ relpaths.map
          (fun q => itemUploadOutcome info.itemUrls putStatus q (idOf q)) := by
        rw [← he]; exact List.mem_map_of_mem _ hrp
      have hraise := @parallelLimitRun_raises DSErr Unit _ 4 sched e hmem
      rcases hres : (parallelLimitRun (relpaths.map
          (fun q => itemUploadOutcome info.itemUrls putStatus q (idOf q)))
          4 sched).result with e2 | l
      · constructor
        · simp [createDatasetRun, hreadme, hres, List.mem_map]
        · simp [createDatasetRun, hreadme, hres, isOkB]
      · rw [hres] at hraise
        simp [isOkB] at hraise
    · constructor
      · simp [createDatasetRun, hreadme]
      · simp [createDatasetRun, hreadme, isOkB]
  · intro hsig
    cases urlsResp with
    | error e => simp [createDatasetRun] at hsig
    | ok info =>
      by_cases hreadme : statusOk readmeStatus
      · rcases hres : (parallelLimitRun (relpaths.map
            (fun q => itemUploadOutcome info.itemUrls putStatus q (idOf q)))
            4 sched).result with e | l
        · exfalso
          simp [createDatasetRun, hreadme, hres, List.mem_map] at hsig
        · have hmap := parallelLimitRun_ok hres
          have hallok : ∀ x ∈ relpaths.map
              (fun q => itemUploadOutcome info.itemUrls putStatus q (idOf q)),
              ∃ a, x = Except.ok a := by
            intro x hx
            rw [hmap] at hx
            rw [List.mem_map] at hx
            obtain ⟨a, _, haeq⟩ := hx
            exact ⟨a, haeq.symm⟩
          refine ⟨info, rfl, ?_, ?_⟩
          · intro rp hrp
            obtain ⟨a, ha⟩ := hallok _ (List.mem_map_of_mem _ hrp)
            rw [ha]
          · have hstart := parallelLimitRun_started_all (relpaths.map
              (fun q => itemUploadOutcome info.itemUrls putStatus q (idOf q)))
              4 sched hallok
            simp [createDatasetRun, hreadme, hres, hstart]
      · simp [createDatasetRun, hreadme] at hsig

theorem C2_witness :
    CDEvent.signalCall ∉ (createDatasetRun (fun s => s) ["a.txt"]
      (Except.ok ⟨"s3://bucket/uuid", []⟩) 200 (fun _ => 200)
      (Except.ok "s3://bucket/uuid") []).2 :=
  ((C2_createDataset_signal_order (fun s => s) ["a.txt"]
      (Except.ok ⟨"s3://bucket/uuid", []⟩) 200 (fun _ => 200)
      (Except.ok "s3://bucket/uuid") []).1 ⟨"s3://bucket/uuid", []⟩ rfl
    ⟨"a.txt", by simp, by decide⟩).1

/-- Claim C9 (supporting the code-bug verdict): when the preferred MD5
digest is unavailable — which is the case in every standards-compliant
WebCrypto implementation — `computeItemMetadata` silently uses SHA-256
while the upload metadata still declares the `hash` field as an MD5 digest
and no field records the substitution: the algorithm actually used and the
declared algorithm mismatch, for every content and every digest
collaborator. -/
theorem C9_computeItemMetadata_mismatch (digest : HashAlgo → List ℕ → List ℕ)
    (content : List ℕ) :
    (computeItemMetadataRun digest false content).2.1 = HashAlgo.sha256 ∧
    (computeItemMetadataRun digest false content).2.1 ≠ declaredHashAlgo := by
  refine ⟨rfl, ?_⟩
  intro h
  simp [computeItemMetadataRun, declaredHashAlgo] at h

/-- Claim C8: every signed-URL gateway call made through the request helper
(`getDatasetSignedUrls`, `getItemSignedUrl`, `getUploadUrls`,
`signalUploadComplete`) fails with `AuthenticationError` exactly when the
response status is 401, `AuthorizationError` exactly when 403,
`NotFoundError` exactly when 404, and a generic `DServerError` carrying the
status code and response body at every other non-success status; each call
issues exactly one HTTP request — none retries internally. -/
theorem C8_gateway_error_mapping {α : Type} (encode : String → String)
    (uri baseUri identifier : String) (resp : HttpResp α) :
    mapsStatuses (getDatasetSignedUrlsRun encode uri resp)
      resp.status resp.errorBody resp.value ∧
    mapsStatuses (getItemSignedUrlRun encode uri identifier resp)
      resp.status resp.errorBody resp.value ∧
    mapsStatuses (getUploadUrlsRun encode baseUri resp)
      resp.status resp.errorBody resp.value ∧
    mapsStatuses (signalUploadCompleteRun resp)
      resp.status resp.errorBody resp.value :=
  ⟨requestRun_maps _ _ _, requestRun_maps _ _ _, requestRun_maps _ _ _,
    requestRun_maps _ _ _⟩

theorem C8_witness :
    (getDatasetSignedUrlsRun (fun s => s) "s3://bucket/uuid"
      ({ status := 401, errorBody := "", value := 0 } : HttpResp ℕ)).1 =
      Except.error DSErr.authentication :=
  ((C8_gateway_error_mapping (fun s => s) "s3://bucket/uuid" "s3://bucket" "it"
    ({ status := 401, errorBody := "", value := 0 } : HttpResp ℕ)).1.1).mpr rfl

end DCl
